import Mathlib

/-!
FontManagerWindows: font lookup and fallback-font resolution

A shallow embedding of `src/FontManagerWindows.cc`.

Modelling conventions.

* DirectWrite objects are plain data.  A pointer that the program may hold as
  `NULL` is an `Option`; a call made through a `NULL` pointer ends the run with
  `Fault.nullDereference`.
* The `HR` macro throws `"Font loading error"` on a failing `HRESULT`; this is
  `Fault.fontLoadingError`.  A platform call that can fail for the data it is
  given returns `Except HRESULT _`.  Calls on a live object with in-range
  arguments are taken to succeed.
* What DirectWrite computes by algorithms of its own (best-match filtering,
  text layout, face-to-font lookup, the user's locale) is a field of `Platform`
  and is left arbitrary.
* UTF-8/UTF-16 conversion is the identity on `String`.  Locale and family names
  are taken in the form in which the platform compares them, so name comparison
  is equality.  The floating-point layout constants `12.0` and `100.0` are kept
  as the naturals `12` and `100`; nothing computes with them.
-/

namespace FontManagerWindows

/-! ## Results of calls -/

/-- The ways a call can end without returning: the `HR` macro throws, or a
method is called through a `NULL` pointer. -/
inductive Fault where
  | fontLoadingError
  | nullDereference
  deriving DecidableEq

/-- The `HRESULT` values that occur. -/
inductive HRESULT where
  | S_OK
  | E_FAIL
  | E_NOTIMPL
  | DWRITE_E_NOSUCHFONT
  deriving DecidableEq

/-- The macro `#define HR(hr) if (FAILED(hr)) throw "Font loading error";` -/
def HR {α : Type} : Except HRESULT α → Except Fault α
  | .ok a => .ok a
  | .error _ => .error Fault.fontLoadingError

/-! ## Constants of `dwrite.h` -/

/-- Constant `UINT_MAX`, the index `FindLocaleName` and `FindFamilyName` report when the
name is absent. -/
def UINT_MAX : Nat := 4294967295

/-- Constant `DWRITE_FONT_WEIGHT_NORMAL` -/
def DWRITE_FONT_WEIGHT_NORMAL : Nat := 400

/-- Constant `DWRITE_FONT_STRETCH_UNDEFINED` -/
def DWRITE_FONT_STRETCH_UNDEFINED : Nat := 0

/-- Constant `DWRITE_FONT_STRETCH_NORMAL` -/
def DWRITE_FONT_STRETCH_NORMAL : Nat := 5

/-- Constant `DWRITE_FONT_STYLE_NORMAL` -/
def DWRITE_FONT_STYLE_NORMAL : Nat := 0

/-- Constant `DWRITE_FONT_STYLE_OBLIQUE` -/
def DWRITE_FONT_STYLE_OBLIQUE : Nat := 1

/-- Constant `DWRITE_FONT_STYLE_ITALIC` -/
def DWRITE_FONT_STYLE_ITALIC : Nat := 2

/-- The informational string ids the program asks for. -/
inductive DWRITE_INFORMATIONAL_STRING_ID where
  | POSTSCRIPT_NAME
  | WIN32_FAMILY_NAMES
  | WIN32_SUBFAMILY_NAMES
  deriving DecidableEq

/-! ## Data model -/

/-- Modelled from the spec: `FontDescriptor.h` is not among the sources.  The
four name fields are `char *` and may be `NULL`; `weight` and `width` are the
integer values of the `FontWeight` and `FontWidth` enumerations, `0` standing
for "unspecified". -/
structure FontDescriptor where
  path : Option String
  postscriptName : Option String
  family : Option String
  style : Option String
  weight : Nat
  width : Nat
  italic : Bool
  monospace : Bool
  deriving DecidableEq

/-- Modelled from the spec: `new FontDescriptor()`, the descriptor with every
field unset. -/
def FontDescriptor.new : FontDescriptor :=
  { path := none, postscriptName := none, family := none, style := none,
    weight := 0, width := 0, italic := false, monospace := false }

/-- Modelled from the spec: `ResultSet` of `FontDescriptor.h`, a sequence of
`FontDescriptor *`; an element may be `NULL`. -/
abbrev ResultSet := List (Option FontDescriptor)

/-- Type `IDWriteLocalizedStrings`: locale name / string pairs in table order. -/
structure IDWriteLocalizedStrings where
  entries : List (String × String)
  deriving DecidableEq

/-- Type `IDWriteFontFile`: `localFilePath` is the path when the file's loader
answers `QueryInterface(IDWriteLocalFontFileLoader)`, and `none` when it does
not. -/
structure IDWriteFontFile where
  localFilePath : Option String
  deriving DecidableEq

/-- Type `IDWriteFontFace` -/
structure IDWriteFontFace where
  files : List IDWriteFontFile
  deriving DecidableEq

/-- Type `IDWriteFont`.  The three optional tables are what
`GetInformationalStrings` hands out (absent: `exists = FALSE` and a `NULL`
table); `familyNames` is `GetFontFamily()->GetFamilyNames()`. -/
structure IDWriteFont where
  postscriptName : Option IDWriteLocalizedStrings
  win32FamilyNames : Option IDWriteLocalizedStrings
  win32SubfamilyNames : Option IDWriteLocalizedStrings
  face : IDWriteFontFace
  weight : Nat
  stretch : Nat
  style : Nat
  familyNames : IDWriteLocalizedStrings
  deriving DecidableEq

/-- Type `IDWriteFontFamily` -/
structure IDWriteFontFamily where
  familyNames : IDWriteLocalizedStrings
  fonts : List IDWriteFont
  deriving DecidableEq

/-- Type `IDWriteFontCollection` -/
structure IDWriteFontCollection where
  families : List IDWriteFontFamily
  deriving DecidableEq

/-- Type `IDWriteTextFormat`, as built by `CreateTextFormat`. -/
structure IDWriteTextFormat where
  fontFamilyName : String
  fontCollection : IDWriteFontCollection
  fontWeight : Nat
  fontStyle : Nat
  fontStretch : Nat
  fontSize : Nat
  localeName : String
  deriving DecidableEq

/-- Type `IDWriteTextLayout`, as built by `CreateTextLayout`. -/
structure IDWriteTextLayout where
  string : String
  textFormat : IDWriteTextFormat
  maxWidth : Nat
  maxHeight : Nat
  deriving DecidableEq

/-- Type `DWRITE_GLYPH_RUN`: only the font face is read. -/
structure DWRITE_GLYPH_RUN where
  fontFace : IDWriteFontFace
  deriving DecidableEq

/-- What the platform decides by itself. -/
structure Platform where
  /-- Platform call `GetUserDefaultLocaleName`: `none` when the call reports failure. -/
  GetUserDefaultLocaleName : Option String
  /-- Platform call `IDWriteFontFamily::GetMatchingFonts (weight, stretch, style)`. -/
  GetMatchingFonts : IDWriteFontFamily → Nat → Nat → Nat → List IDWriteFont
  /-- Platform call `IDWriteFontCollection::GetFontFromFontFace`. -/
  GetFontFromFontFace : IDWriteFontCollection → IDWriteFontFace → Except HRESULT IDWriteFont
  /-- The glyph runs a layout hands to the renderer, in drawing order. -/
  glyphRuns : IDWriteTextLayout → List DWRITE_GLYPH_RUN

/-! ## Platform accessors on the data -/

/-- Platform call `IDWriteLocalizedStrings::FindLocaleName`: index and `exists`; the index is
`UINT_MAX` when the name is absent. -/
def IDWriteLocalizedStrings.FindLocaleName (strings : IDWriteLocalizedStrings)
    (localeName : String) : Nat × Bool :=
  match strings.entries.findIdx? (fun e => e.1 == localeName) with
  | some i => (i, true)
  | none => (UINT_MAX, false)

/-- Platform call `IDWriteLocalizedStrings::GetStringLength` -/
def IDWriteLocalizedStrings.GetStringLength (strings : IDWriteLocalizedStrings)
    (index : Nat) : Except HRESULT Nat :=
  match strings.entries.get? index with
  | some e => .ok e.2.length
  | none => .error HRESULT.E_FAIL

/-- Platform call `IDWriteLocalizedStrings::GetString` into a buffer of `size` characters. -/
def IDWriteLocalizedStrings.GetString (strings : IDWriteLocalizedStrings)
    (index : Nat) (size : Nat) : Except HRESULT String :=
  match strings.entries.get? index with
  | some e => if e.2.length < size then .ok e.2 else .error HRESULT.E_FAIL
  | none => .error HRESULT.E_FAIL

/-- Platform call `IDWriteFont::GetInformationalStrings`: the table, `NULL` when the font has
no entry for the id. -/
def IDWriteFont.GetInformationalStrings (font : IDWriteFont) :
    DWRITE_INFORMATIONAL_STRING_ID → Option IDWriteLocalizedStrings
  | .POSTSCRIPT_NAME => font.postscriptName
  | .WIN32_FAMILY_NAMES => font.win32FamilyNames
  | .WIN32_SUBFAMILY_NAMES => font.win32SubfamilyNames

/-- Platform call `IDWriteFontCollection::FindFamilyName`: index and `exists`. -/
def IDWriteFontCollection.FindFamilyName (collection : IDWriteFontCollection)
    (familyName : String) : Nat × Bool :=
  match collection.families.findIdx?
      (fun f => f.familyNames.entries.any (fun e => e.2 == familyName)) with
  | some i => (i, true)
  | none => (UINT_MAX, false)

/-- Platform call `IDWriteFontCollection::GetFontFamily` -/
def IDWriteFontCollection.GetFontFamily (collection : IDWriteFontCollection)
    (index : Nat) : Except HRESULT IDWriteFontFamily :=
  match collection.families.get? index with
  | some f => .ok f
  | none => .error HRESULT.E_FAIL

/-- Function `utf16ToUtf8` -/
def utf16ToUtf8 (input : String) : String := input

/-- Function `utf8ToUtf16` -/
def utf8ToUtf16 (input : String) : String := input

/-! ## The program -/

/-- Function `getLocaleIndex`: the index of the user's locale in the set of localized
strings. -/
def getLocaleIndex (p : Platform) (strings : Option IDWriteLocalizedStrings) :
    Except Fault Nat :=
  match strings with
  | none => .error Fault.nullDereference
  | some strings =>
    let index := 0
    let found := false
    let (index, found) :=
      match p.GetUserDefaultLocaleName with
      | some localeName => strings.FindLocaleName localeName
      | none => (index, found)
    let (index, found) :=
      if !found then strings.FindLocaleName "en-us" else (index, found)
    let index := if !found then 0 else index
    .ok index

/-- Function `getString`: a localized string for a font. -/
def getString (p : Platform) (font : IDWriteFont) (string_id : DWRITE_INFORMATIONAL_STRING_ID) :
    Except Fault String :=
  let strings := font.GetInformationalStrings string_id
  let found := strings.isSome
  match getLocaleIndex p strings with
  | .error e => .error e
  | .ok index =>
    if found then
      match strings with
      | none => .error Fault.nullDereference
      | some strings =>
        match HR (strings.GetStringLength index) with
        | .error e => .error e
        | .ok len =>
          match HR (strings.GetString index (len + 1)) with
          | .error e => .error e
          | .ok str => .ok (utf16ToUtf8 str)
    else
      .ok ""

/-- Function `resultFromFont`: the descriptor of a font, `NULL` when the face has no
file or its first file has no local file loader. -/
def resultFromFont (p : Platform) (font : Option IDWriteFont) :
    Except Fault (Option FontDescriptor) :=
  match font with
  | none => .error Fault.nullDereference
  | some font =>
    let res : Option FontDescriptor := none
    let face := font.face
    let files := face.files
    let numFiles := files.length
    if numFiles > 0 then
      match files.head? with
      | none => .ok res
      | some file0 =>
        match file0.localFilePath with
        | some name =>
          match getString p font .POSTSCRIPT_NAME with
          | .error e => .error e
          | .ok postscriptName =>
            match getString p font .WIN32_FAMILY_NAMES with
            | .error e => .error e
            | .ok family =>
              match getString p font .WIN32_SUBFAMILY_NAMES with
              | .error e => .error e
              | .ok style =>
                .ok (some
                  { path := some (utf16ToUtf8 name)
                    postscriptName := some postscriptName
                    family := some family
                    style := some style
                    weight := font.weight
                    width := font.stretch
                    italic := font.style == DWRITE_FONT_STYLE_ITALIC
                    monospace := false })
        | none => .ok res
    else
      .ok res

/-- The inner loop of `getAvailableFonts`, over the fonts of one family. -/
def getAvailableFonts.fontLoop (p : Platform) :
    List IDWriteFont → ResultSet → Except Fault ResultSet
  | [], res => .ok res
  | font :: fonts, res =>
    match resultFromFont p (some font) with
    | .error e => .error e
    | .ok d => getAvailableFonts.fontLoop p fonts (res ++ [d])

/-- The outer loop of `getAvailableFonts`, over the families. -/
def getAvailableFonts.familyLoop (p : Platform) :
    List IDWriteFontFamily → ResultSet → Except Fault ResultSet
  | [], res => .ok res
  | family :: families, res =>
    match getAvailableFonts.fontLoop p family.fonts res with
    | .error e => .error e
    | .ok res => getAvailableFonts.familyLoop p families res

/-- Function `getAvailableFonts` on the system font collection. -/
def getAvailableFonts (p : Platform) (collection : IDWriteFontCollection) :
    Except Fault ResultSet :=
  getAvailableFonts.familyLoop p collection.families []

/-- The weight `findFontsByFamily` hands to `GetMatchingFonts`. -/
def findFontsByFamily.weight (desc : FontDescriptor) : Nat :=
  if desc.weight != 0 then desc.weight else DWRITE_FONT_WEIGHT_NORMAL

/-- The stretch `findFontsByFamily` hands to `GetMatchingFonts`. -/
def findFontsByFamily.stretch (desc : FontDescriptor) : Nat :=
  if desc.width != 0 then desc.width else DWRITE_FONT_STRETCH_UNDEFINED

/-- The style `findFontsByFamily` hands to `GetMatchingFonts`. -/
def findFontsByFamily.style (desc : FontDescriptor) : Nat :=
  if desc.italic then DWRITE_FONT_STYLE_ITALIC else DWRITE_FONT_STYLE_NORMAL

/-- Function `findFontsByFamily`: the font list `GetMatchingFonts` returns for the
family named by the descriptor, `NULL` when no family has that name.  Both
callers test `desc->family` first; reading a `NULL` family is a fault. -/
def findFontsByFamily (p : Platform) (collection : IDWriteFontCollection)
    (desc : FontDescriptor) : Except Fault (Option (List IDWriteFont)) :=
  match desc.family with
  | none => .error Fault.nullDereference
  | some descFamily =>
    let family := utf8ToUtf16 descFamily
    let (index, found) := collection.FindFamilyName family
    if found then
      match HR (collection.GetFontFamily index) with
      | .error e => .error e
      | .ok family =>
        .ok (some (p.GetMatchingFonts family
          (findFontsByFamily.weight desc)
          (findFontsByFamily.stretch desc)
          (findFontsByFamily.style desc)))
    else
      .ok none

/-- The inner loop of `findFontByPostscriptName`, over the fonts of one
family. -/
def findFontByPostscriptName.fontLoop (p : Platform) (desc : FontDescriptor) :
    List IDWriteFont → Except Fault (Option IDWriteFont)
  | [] => .ok none
  | font :: fonts =>
    match getString p font .POSTSCRIPT_NAME with
    | .error e => .error e
    | .ok psName =>
      match desc.postscriptName with
      | none => .error Fault.nullDereference
      | some descName =>
        if psName == descName then .ok (some font)
        else findFontByPostscriptName.fontLoop p desc fonts

/-- The outer loop of `findFontByPostscriptName`, over the families. -/
def findFontByPostscriptName.familyLoop (p : Platform) (desc : FontDescriptor) :
    List IDWriteFontFamily → Except Fault (Option IDWriteFont)
  | [] => .ok none
  | family :: families =>
    match findFontByPostscriptName.fontLoop p desc family.fonts with
    | .error e => .error e
    | .ok (some font) => .ok (some font)
    | .ok none => findFontByPostscriptName.familyLoop p desc families

/-- Function `findFontByPostscriptName`: the first font, families then faces, whose
postscript name is the descriptor's; `NULL` when there is none. -/
def findFontByPostscriptName (p : Platform) (collection : IDWriteFontCollection)
    (desc : FontDescriptor) : Except Fault (Option IDWriteFont) :=
  findFontByPostscriptName.familyLoop p desc collection.families

/-- The loop of `findFonts` over a matching font list. -/
def findFonts.fontLoop (p : Platform) :
    List IDWriteFont → ResultSet → Except Fault ResultSet
  | [], res => .ok res
  | font :: fonts, res =>
    match resultFromFont p (some font) with
    | .error e => .error e
    | .ok d => findFonts.fontLoop p fonts (res ++ [d])

/-- Function `findFonts` on the system font collection. -/
def findFonts (p : Platform) (collection : IDWriteFontCollection)
    (desc : FontDescriptor) : Except Fault ResultSet :=
  let res : ResultSet := []
  if desc.family.isSome then
    match findFontsByFamily p collection desc with
    | .error e => .error e
    | .ok fonts =>
      match fonts with
      | some fonts => findFonts.fontLoop p fonts res
      | none => .ok res
  else if desc.postscriptName.isSome then
    match findFontByPostscriptName p collection desc with
    | .error e => .error e
    | .ok font =>
      match resultFromFont p font with
      | .error e => .error e
      | .ok d => .ok (res ++ [d])
  else
    .ok res

/-- Function `findFont` on the system font collection. -/
def findFont (p : Platform) (collection : IDWriteFontCollection)
    (desc : FontDescriptor) : Except Fault (Option FontDescriptor) :=
  let font : Except Fault (Option IDWriteFont) :=
    if desc.family.isSome then
      match findFontsByFamily p collection desc with
      | .error e => .error e
      | .ok fonts =>
        match fonts with
        | some fonts => .ok fonts.head?
        | none => .ok none
    else if desc.postscriptName.isSome then
      findFontByPostscriptName p collection desc
    else
      .ok none
  match font with
  | .error e => .error e
  | .ok (some font) => resultFromFont p (some font)
  | .ok none => .ok none

/-- Type `FontFallbackRenderer`: the renderer's state. -/
structure FontFallbackRenderer where
  systemFonts : IDWriteFontCollection
  font : Option IDWriteFont
  deriving DecidableEq

/-- The constructor of `FontFallbackRenderer`. -/
def FontFallbackRenderer.new (collection : IDWriteFontCollection) : FontFallbackRenderer :=
  { systemFonts := collection, font := none }

/-- Platform call `FontFallbackRenderer::DrawGlyphRun`: save the font that was actually
rendered.  On failure the platform leaves `NULL` in the out parameter. -/
def FontFallbackRenderer.DrawGlyphRun (p : Platform) (renderer : FontFallbackRenderer)
    (glyphRun : DWRITE_GLYPH_RUN) : HRESULT × FontFallbackRenderer :=
  match p.GetFontFromFontFace renderer.systemFonts glyphRun.fontFace with
  | .ok font => (HRESULT.S_OK, { renderer with font := some font })
  | .error hr => (hr, { renderer with font := none })

/-- The drawing pass over the glyph runs: one `DrawGlyphRun` per run, in order;
a failing callback ends the pass with its `HRESULT`. -/
def IDWriteTextLayout.Draw.runLoop (p : Platform) :
    List DWRITE_GLYPH_RUN → FontFallbackRenderer → Except HRESULT FontFallbackRenderer
  | [], renderer => .ok renderer
  | glyphRun :: glyphRuns, renderer =>
    match renderer.DrawGlyphRun p glyphRun with
    | (HRESULT.S_OK, renderer) => IDWriteTextLayout.Draw.runLoop p glyphRuns renderer
    | (hr, _) => .error hr

/-- Platform call `IDWriteTextLayout::Draw` against the renderer. -/
def IDWriteTextLayout.Draw (p : Platform) (layout : IDWriteTextLayout)
    (renderer : FontFallbackRenderer) : Except HRESULT FontFallbackRenderer :=
  IDWriteTextLayout.Draw.runLoop p (p.glyphRuns layout) renderer

/-- The text format `substituteFont` creates: the base font's family name,
weight, style and stretch, at size `12.0` and locale `en-us`. -/
def substituteFont.format (collection : IDWriteFontCollection) (font : IDWriteFont)
    (familyName : String) : IDWriteTextFormat :=
  { fontFamilyName := familyName
    fontCollection := collection
    fontWeight := font.weight
    fontStyle := font.style
    fontStretch := font.stretch
    fontSize := 12
    localeName := "en-us" }

/-- The text layout `substituteFont` creates for the substitution string, in
a box of `100.0` by `100.0`. -/
def substituteFont.layout (collection : IDWriteFontCollection) (font : IDWriteFont)
    (familyName : String) (str : String) : IDWriteTextLayout :=
  { string := str
    textFormat := substituteFont.format collection font familyName
    maxWidth := 100
    maxHeight := 100 }

/-- Function `substituteFont` on the system font collection. -/
def substituteFont (p : Platform) (collection : IDWriteFontCollection)
    (postscriptName : String) (string : String) : Except Fault (Option FontDescriptor) :=
  let res : Option FontDescriptor := none
  let desc : FontDescriptor := { FontDescriptor.new with postscriptName := some postscriptName }
  match findFontByPostscriptName p collection desc with
  | .error e => .error e
  | .ok none => .ok res
  | .ok (some font) =>
    let names := font.familyNames
    match HR (names.GetStringLength 0) with
    | .error e => .error e
    | .ok length =>
      match HR (names.GetString 0 (length + 1)) with
      | .error e => .error e
      | .ok familyName =>
        let str := utf8ToUtf16 string
        let layout := substituteFont.layout collection font familyName str
        let renderer := FontFallbackRenderer.new collection
        match HR (layout.Draw p renderer) with
        | .error e => .error e
        | .ok renderer =>
          match renderer.font with
          | some font => resultFromFont p (some font)
          | none => .ok res

/-! ## Enumeration order and sample data -/

/-- The faces of a collection in the platform's enumeration order: families,
then the faces within each family. -/
def allFonts (collection : IDWriteFontCollection) : List IDWriteFont :=
  collection.families.flatMap (fun family => family.fonts)

/-- A table with the single locale `en-us`. -/
def enUsTable (s : String) : IDWriteLocalizedStrings :=
  { entries := [("en-us", s)] }

/-- A face backed by one local file. -/
def localFace (path : String) : IDWriteFontFace :=
  { files := [{ localFilePath := some path }] }

/-- A font with all three name tables and a local file. -/
def sampleFont (psName family style path : String) (weight stretch fontStyle : Nat) :
    IDWriteFont :=
  { postscriptName := some (enUsTable psName)
    win32FamilyNames := some (enUsTable family)
    win32SubfamilyNames := some (enUsTable style)
    face := localFace path
    weight := weight
    stretch := stretch
    style := fontStyle
    familyNames := enUsTable family }

/-- Sample face: regular weight, normal width. -/
def sampleRegular : IDWriteFont :=
  sampleFont "Sample-Regular" "Sample" "Regular" "C:/Windows/Fonts/sample.ttf" 400 5 0

/-- Sample face: bold weight, ultra-condensed width. -/
def sampleBoldCondensed : IDWriteFont :=
  sampleFont "Sample-BoldCondensed" "Sample" "Bold Condensed" "C:/Windows/Fonts/samplebc.ttf" 700 1 0

/-- Sample face of another family, used as a fallback. -/
def sampleFallback : IDWriteFont :=
  sampleFont "Fallback-Regular" "Fallback" "Regular" "C:/Windows/Fonts/fallback.ttf" 400 5 0

/-- Sample face without any font file. -/
def sampleNoFile : IDWriteFont :=
  { sampleFont "Stream-Regular" "Stream" "Regular" "" 400 5 0 with face := { files := [] } }

/-- Sample face with a local file and no postscript-name entry. -/
def sampleNoPsName : IDWriteFont :=
  { sampleFont "" "Legacy" "Regular" "C:/Windows/Fonts/legacy.ttf" 400 5 0 with
    postscriptName := none }

/-- Two installed faces with one postscript name: the second is a bold face
from another file. -/
def sampleDuplicate : IDWriteFont :=
  sampleFont "Sample-Regular" "Sample" "Bold" "C:/Users/me/Fonts/sample-copy.ttf" 700 5 0

/-- A family of the given name and faces. -/
def sampleFamily (name : String) (fonts : List IDWriteFont) : IDWriteFontFamily :=
  { familyNames := enUsTable name, fonts := fonts }

/-- Sample collection: two families, three faces, distinct postscript names. -/
def sampleCollection : IDWriteFontCollection :=
  { families := [sampleFamily "Sample" [sampleRegular, sampleBoldCondensed],
                 sampleFamily "Fallback" [sampleFallback]] }

/-- Sample collection with one face that has no font file. -/
def noFileCollection : IDWriteFontCollection :=
  { families := [sampleFamily "Stream" [sampleNoFile]] }

/-- Sample collection whose first face has no postscript-name entry. -/
def noPsNameCollection : IDWriteFontCollection :=
  { families := [sampleFamily "Legacy" [sampleNoPsName],
                 sampleFamily "Sample" [sampleRegular]] }

/-- Sample collection in which two faces share a postscript name. -/
def duplicateCollection : IDWriteFontCollection :=
  { families := [sampleFamily "Sample" [sampleRegular, sampleDuplicate]] }

/-- A best-match filter that keeps the faces of the family nearest in stretch
to the request. -/
def nearestStretch (family : IDWriteFontFamily) (_weight stretch _style : Nat) :
    List IDWriteFont :=
  family.fonts.filter (fun f =>
    family.fonts.all (fun g =>
      decide ((f.stretch - stretch) + (stretch - f.stretch)
        ≤ (g.stretch - stretch) + (stretch - g.stretch))))

/-- A face-to-font lookup: the first font of the collection with that face. -/
def firstFontWithFace (collection : IDWriteFontCollection) (face : IDWriteFontFace) :
    Except HRESULT IDWriteFont :=
  match (allFonts collection).find? (fun f => f.face == face) with
  | some f => .ok f
  | none => .error HRESULT.DWRITE_E_NOSUCHFONT

/-- A layout that draws one glyph run per character: ASCII with the sample
regular face, anything else with the fallback face. -/
def runPerCharacter (layout : IDWriteTextLayout) : List DWRITE_GLYPH_RUN :=
  layout.string.toList.map (fun ch =>
    if ch.toNat < 128 then { fontFace := sampleRegular.face }
    else { fontFace := sampleFallback.face })

/-- Sample platform: German user locale. -/
def samplePlatform : Platform :=
  { GetUserDefaultLocaleName := some "de-de"
    GetMatchingFonts := nearestStretch
    GetFontFromFontFace := firstFontWithFace
    glyphRuns := runPerCharacter }

/-- Sample table with the locales `fr-fr`, `en-us`, `de-de`, in that order. -/
def sampleTable : IDWriteLocalizedStrings :=
  { entries := [("fr-fr", "Exemple"), ("en-us", "Sample"), ("de-de", "Beispiel")] }

/-- The query with only a postscript name. -/
def postscriptQuery (name : String) : FontDescriptor :=
  { FontDescriptor.new with postscriptName := some name }

/-- The query with only a family name. -/
def familyQuery (name : String) : FontDescriptor :=
  { FontDescriptor.new with family := some name }

/-- Sample face whose postscript-name table is present and empty. -/
def sampleEmptyPsTable : IDWriteFont :=
  { sampleRegular with postscriptName := some { entries := [] } }

/-- Sample collection: a face with a local file, then a face without any
file. -/
def mixedCollection : IDWriteFontCollection :=
  { families := [sampleFamily "Sample" [sampleRegular],
                 sampleFamily "Stream" [sampleNoFile]] }

/-- The descriptor of `sampleRegular`. -/
def sampleRegularDescriptor : FontDescriptor :=
  { path := some "C:/Windows/Fonts/sample.ttf", postscriptName := some "Sample-Regular",
    family := some "Sample", style := some "Regular",
    weight := 400, width := 5, italic := false, monospace := false }

/-- The descriptor of `sampleBoldCondensed`. -/
def sampleBoldCondensedDescriptor : FontDescriptor :=
  { path := some "C:/Windows/Fonts/samplebc.ttf", postscriptName := some "Sample-BoldCondensed",
    family := some "Sample", style := some "Bold Condensed",
    weight := 700, width := 1, italic := false, monospace := false }

/-- The descriptor of `sampleFallback`. -/
def sampleFallbackDescriptor : FontDescriptor :=
  { path := some "C:/Windows/Fonts/fallback.ttf", postscriptName := some "Fallback-Regular",
    family := some "Fallback", style := some "Regular",
    weight := 400, width := 5, italic := false, monospace := false }

/-- The locale names of a table, in table order. -/
def IDWriteLocalizedStrings.locales (strings : IDWriteLocalizedStrings) : List String :=
  strings.entries.map Prod.fst

/-! ## Locale lookup -/

/-- A locale name the table holds is found at its first index. -/
theorem FindLocaleName_of_mem (strings : IDWriteLocalizedStrings) (name : String)
    (h : name ∈ strings.locales) :
    ∃ i, strings.FindLocaleName name = (i, true) ∧ strings.locales[i]? = some name ∧
      ∀ j, j < i → strings.locales[j]? ≠ some name := by
  obtain ⟨e, he, hname⟩ := List.mem_map.mp h
  have hex : ∃ x, x ∈ strings.entries ∧ (fun e : String × String => e.1 == name) x = true :=
    ⟨e, he, by simp [hname]⟩
  have hfind := List.findIdx?_eq_some_of_exists hex
  obtain ⟨hlt, hp, hmin⟩ := List.findIdx?_eq_some_iff_getElem.mp hfind
  refine ⟨List.findIdx (fun e : String × String => e.1 == name) strings.entries, ?_, ?_, ?_⟩
  · simp only [IDWriteLocalizedStrings.FindLocaleName, hfind]
  · have hlt2 : List.findIdx (fun e : String × String => e.1 == name) strings.entries
        < strings.locales.length := by
      simpa [IDWriteLocalizedStrings.locales] using hlt
    rw [List.getElem?_eq_getElem hlt2]
    simp only [IDWriteLocalizedStrings.locales, List.getElem_map]
    simpa using hp
  · intro j hj hcontra
    have hjlt : j < strings.entries.length := Nat.lt_trans hj hlt
    have hnot := hmin j hj
    have hjlt2 : j < strings.locales.length := by
      simpa [IDWriteLocalizedStrings.locales] using hjlt
    rw [List.getElem?_eq_getElem hjlt2] at hcontra
    simp only [IDWriteLocalizedStrings.locales, List.getElem_map, Option.some.injEq] at hcontra
    exact hnot (by simp [hcontra])

/-- A locale name the table lacks is reported absent, with index `UINT_MAX`. -/
theorem FindLocaleName_of_not_mem (strings : IDWriteLocalizedStrings) (name : String)
    (h : name ∉ strings.locales) :
    strings.FindLocaleName name = (UINT_MAX, false) := by
  have hnone : strings.entries.findIdx? (fun e => e.1 == name) = none := by
    rw [List.findIdx?_eq_none_iff]
    intro x hx
    by_contra hc
    apply h
    simp only [Bool.not_eq_false, beq_iff_eq] at hc
    exact List.mem_map.mpr ⟨x, hx, hc⟩
  simp only [IDWriteLocalizedStrings.FindLocaleName, hnone]

/-- C2: with a user locale `userLocale`, `getLocaleIndex` on a table returns an
index; when the table holds the user's locale that index is the (first) index
of the user's locale; when it lacks the user's locale and holds `en-us` it is
the (first) index of `en-us`; when it lacks both it is `0`. -/
theorem getLocaleIndex_fallback_chain (p : Platform) (strings : IDWriteLocalizedStrings)
    (userLocale : String) (huser : p.GetUserDefaultLocaleName = some userLocale) :
    ∃ index, getLocaleIndex p (some strings) = .ok index ∧
      (userLocale ∈ strings.locales →
        strings.locales[index]? = some userLocale ∧
          ∀ j, j < index → strings.locales[j]? ≠ some userLocale) ∧
      (userLocale ∉ strings.locales → "en-us" ∈ strings.locales →
        strings.locales[index]? = some "en-us" ∧
          ∀ j, j < index → strings.locales[j]? ≠ some "en-us") ∧
      (userLocale ∉ strings.locales → "en-us" ∉ strings.locales → index = 0) := by
  by_cases hu : userLocale ∈ strings.locales
  · obtain ⟨i, hfind, hget, hmin⟩ := FindLocaleName_of_mem strings userLocale hu
    refine ⟨i, ?_, fun _ => ⟨hget, hmin⟩, fun hn => absurd hu hn, fun hn => absurd hu hn⟩
    simp [getLocaleIndex, huser, hfind]
  · have hfindu := FindLocaleName_of_not_mem strings userLocale hu
    by_cases he : "en-us" ∈ strings.locales
    · obtain ⟨i, hfind, hget, hmin⟩ := FindLocaleName_of_mem strings "en-us" he
      refine ⟨i, ?_, fun h => absurd h hu, fun _ _ => ⟨hget, hmin⟩, fun _ hn => absurd he hn⟩
      simp [getLocaleIndex, huser, hfindu, hfind]
    · have hfinde := FindLocaleName_of_not_mem strings "en-us" he
      refine ⟨0, ?_, fun h => absurd h hu, fun _ h => absurd h he, fun _ _ => rfl⟩
      simp [getLocaleIndex, huser, hfindu, hfinde]

/-- C2 at the sample table `fr-fr, en-us, de-de` for a German user. -/
theorem getLocaleIndex_fallback_chain_witness :
    samplePlatform.GetUserDefaultLocaleName = some "de-de" ∧
    ∃ index, getLocaleIndex samplePlatform (some sampleTable) = .ok index ∧
      ("de-de" ∈ sampleTable.locales →
        sampleTable.locales[index]? = some "de-de" ∧
          ∀ j, j < index → sampleTable.locales[j]? ≠ some "de-de") ∧
      ("de-de" ∉ sampleTable.locales → "en-us" ∈ sampleTable.locales →
        sampleTable.locales[index]? = some "en-us" ∧
          ∀ j, j < index → sampleTable.locales[j]? ≠ some "en-us") ∧
      ("de-de" ∉ sampleTable.locales → "en-us" ∉ sampleTable.locales → index = 0) :=
  ⟨rfl, getLocaleIndex_fallback_chain samplePlatform sampleTable "de-de" rfl⟩

/-! ## Missing tables and missing faces -/

/-- The locale lookup on a `NULL` table is a call through a null pointer. -/
theorem getLocaleIndex_null (p : Platform) :
    getLocaleIndex p none = .error Fault.nullDereference := rfl

/-- Function `getString` on a font without the requested table ends in the null
dereference of `getLocaleIndex`. -/
theorem getString_of_absent (p : Platform) (font : IDWriteFont)
    (string_id : DWRITE_INFORMATIONAL_STRING_ID)
    (h : font.GetInformationalStrings string_id = none) :
    getString p font string_id = .error Fault.nullDereference := by
  simp [getString, h, getLocaleIndex]

/-- C3 (the code at the failing input): for a face with no postscript-name
entry `getString` does not return the empty string, it calls `getLocaleIndex`
on the `NULL` table and ends in a null dereference; for a face whose table is
present and empty it throws the font loading error. -/
theorem getString_absent_table_faults :
    sampleNoPsName.GetInformationalStrings .POSTSCRIPT_NAME = none ∧
    getLocaleIndex samplePlatform
      (sampleNoPsName.GetInformationalStrings .POSTSCRIPT_NAME) = .error Fault.nullDereference ∧
    getString samplePlatform sampleNoPsName .POSTSCRIPT_NAME = .error Fault.nullDereference ∧
    getString samplePlatform sampleEmptyPsTable .POSTSCRIPT_NAME = .error Fault.fontLoadingError :=
  ⟨rfl, rfl, rfl, rfl⟩

/-- C5 (the code at the failing input): no face of the sample collection is
named `Nonexistent-Font-Xyz`, the scan returns `NULL`, and `findFonts` hands
that `NULL` to `resultFromFont`, which dereferences it; `findFont` on the same
input tests the pointer and returns `NULL`. -/
theorem findFonts_missing_postscriptName_faults :
    findFontByPostscriptName samplePlatform sampleCollection
      (postscriptQuery "Nonexistent-Font-Xyz") = .ok none ∧
    findFonts samplePlatform sampleCollection
      (postscriptQuery "Nonexistent-Font-Xyz") = .error Fault.nullDereference ∧
    findFont samplePlatform sampleCollection
      (postscriptQuery "Nonexistent-Font-Xyz") = .ok none :=
  ⟨rfl, rfl, rfl⟩

/-- C6 (the code at the failing input): the first scanned face has no
postscript-name entry, and `findFont` for `Nonexistent-Font-Xyz` ends in the
null dereference of `getString` instead of returning `NULL`. -/
theorem findFont_missing_postscriptName_faults :
    (allFonts noPsNameCollection).head? = some sampleNoPsName ∧
    sampleNoPsName.postscriptName = none ∧
    findFont samplePlatform noPsNameCollection
      (postscriptQuery "Nonexistent-Font-Xyz") = .error Fault.nullDereference :=
  ⟨rfl, rfl, rfl⟩

/-! ## Queries without a key, and the best-match request -/

/-- C7: a query with neither family nor postscript name makes `findFonts`
return the empty sequence and `findFont` return `NULL`, whatever the
collection holds. -/
theorem findFonts_empty_query (p : Platform) (collection : IDWriteFontCollection)
    (desc : FontDescriptor) (hfamily : desc.family = none)
    (hname : desc.postscriptName = none) :
    findFonts p collection desc = .ok [] ∧ findFont p collection desc = .ok none := by
  constructor
  · simp [findFonts, hfamily, hname]
  · simp [findFont, hfamily, hname]

/-- C7 on a collection whose every scan would end in a fault. -/
theorem findFonts_empty_query_witness :
    FontDescriptor.new.family = none ∧ FontDescriptor.new.postscriptName = none ∧
    findFonts samplePlatform noPsNameCollection FontDescriptor.new = .ok [] ∧
    findFont samplePlatform noPsNameCollection FontDescriptor.new = .ok none :=
  ⟨rfl, rfl, findFonts_empty_query samplePlatform noPsNameCollection FontDescriptor.new rfl rfl⟩

/-- The weight handed to the filter is the same for weight `0` and for the
normal weight. -/
theorem weight_unspecified (desc : FontDescriptor) :
    findFontsByFamily.weight { desc with weight := 0 }
      = findFontsByFamily.weight { desc with weight := DWRITE_FONT_WEIGHT_NORMAL } := by
  simp [findFontsByFamily.weight, DWRITE_FONT_WEIGHT_NORMAL]

/-- The by-family lookup is the same for weight `0` and for the normal
weight. -/
theorem findFontsByFamily_weight (p : Platform) (collection : IDWriteFontCollection)
    (desc : FontDescriptor) :
    findFontsByFamily p collection { desc with weight := 0 }
      = findFontsByFamily p collection { desc with weight := DWRITE_FONT_WEIGHT_NORMAL } := by
  simp only [findFontsByFamily, weight_unspecified desc, findFontsByFamily.stretch,
    findFontsByFamily.style]

/-- The scan of one family reads only the postscript name of the query. -/
theorem fontLoop_congr (p : Platform) (d₁ d₂ : FontDescriptor)
    (h : d₁.postscriptName = d₂.postscriptName) (fonts : List IDWriteFont) :
    findFontByPostscriptName.fontLoop p d₁ fonts
      = findFontByPostscriptName.fontLoop p d₂ fonts := by
  induction fonts with
  | nil => rfl
  | cons font fonts ih => simp only [findFontByPostscriptName.fontLoop, h, ih]

/-- The scan of the collection reads only the postscript name of the query. -/
theorem findFontByPostscriptName_congr (p : Platform) (collection : IDWriteFontCollection)
    (d₁ d₂ : FontDescriptor) (h : d₁.postscriptName = d₂.postscriptName) :
    findFontByPostscriptName p collection d₁ = findFontByPostscriptName p collection d₂ := by
  unfold findFontByPostscriptName
  induction collection.families with
  | nil => rfl
  | cons family families ih =>
    simp only [findFontByPostscriptName.familyLoop, fontLoop_congr p d₁ d₂ h, ih]

/-- C8: for every collection and every descriptor (family name, width, italic
flag), the by-family lookup with weight unspecified (`0`) returns what the
same lookup with weight `400` returns; so do `findFonts` and `findFont`. -/
theorem findFontsByFamily_unspecified_weight (p : Platform)
    (collection : IDWriteFontCollection) (desc : FontDescriptor) :
    DWRITE_FONT_WEIGHT_NORMAL = 400 ∧
    findFontsByFamily p collection { desc with weight := 0 }
      = findFontsByFamily p collection { desc with weight := 400 } ∧
    findFonts p collection { desc with weight := 0 }
      = findFonts p collection { desc with weight := 400 } ∧
    findFont p collection { desc with weight := 0 }
      = findFont p collection { desc with weight := 400 } := by
  have h := findFontsByFamily_weight p collection desc
  simp only [DWRITE_FONT_WEIGHT_NORMAL] at h
  have hps := findFontByPostscriptName_congr p collection
    { desc with weight := 0 } { desc with weight := 400 } rfl
  refine ⟨rfl, h, ?_, ?_⟩
  · simp only [findFonts, h, hps]
  · simp only [findFont, h, hps]

/-- A family name the collection reports as present has a family at the
reported index. -/
theorem FindFamilyName_found (collection : IDWriteFontCollection) (name : String)
    (index : Nat) (h : collection.FindFamilyName name = (index, true)) :
    ∃ family, collection.GetFontFamily index = .ok family := by
  unfold IDWriteFontCollection.FindFamilyName at h
  split at h
  · next i hi =>
    have hidx : i = index := by
      have := congrArg Prod.fst h
      simpa using this
    subst hidx
    obtain ⟨hlt, -⟩ := List.findIdx?_eq_some_iff_getElem.mp hi
    refine ⟨collection.families[i], ?_⟩
    simp [IDWriteFontCollection.GetFontFamily, List.get?_eq_getElem?,
      List.getElem?_eq_getElem hlt]
  · have := congrArg Prod.snd h
    simp at this

/-- C9 (as stated) fails: with width unspecified the stretch handed to the
best-match filter is `DWRITE_FONT_STRETCH_UNDEFINED` (`0`), which is not
`DWRITE_FONT_STRETCH_NORMAL` (`5`); and on a platform whose filter keeps the
faces nearest in stretch, the lookup with width `0` returns the ultra-condensed
face while the lookup with the normal width returns the regular one. -/
theorem findFontsByFamily_unspecified_width_not_normal :
    findFontsByFamily.stretch (familyQuery "Sample") = DWRITE_FONT_STRETCH_UNDEFINED ∧
    DWRITE_FONT_STRETCH_UNDEFINED ≠ DWRITE_FONT_STRETCH_NORMAL ∧
    findFontsByFamily samplePlatform sampleCollection (familyQuery "Sample")
      = .ok (some [sampleBoldCondensed]) ∧
    findFontsByFamily samplePlatform sampleCollection
      { familyQuery "Sample" with width := DWRITE_FONT_STRETCH_NORMAL }
      = .ok (some [sampleRegular]) ∧
    sampleBoldCondensed ≠ sampleRegular :=
  ⟨rfl, by decide, rfl, rfl, by decide⟩

/-- C9 (amended): for every by-family query whose family the collection
holds, (1) when the width is unspecified (`0`), whatever the italic flag,
`findFontsByFamily` returns what the platform's best-match filter gives for
the undefined stretch `DWRITE_FONT_STRETCH_UNDEFINED`, not the normal one; and
(2) when italic is absent, whatever the width, it returns what the filter
gives for the upright style `DWRITE_FONT_STYLE_NORMAL`.  The other arguments
of the request are the query's own: weight `400` for weight `0` and the
weight itself otherwise, the width as stretch, the italic style for an italic
query. -/
theorem findFontsByFamily_unspecified_width (p : Platform)
    (collection : IDWriteFontCollection) (desc : FontDescriptor) (name : String)
    (index : Nat) (hfamily : desc.family = some name)
    (hfound : collection.FindFamilyName name = (index, true)) :
    ∃ family, collection.GetFontFamily index = .ok family ∧
      (desc.width = 0 →
        findFontsByFamily p collection desc
          = .ok (some (p.GetMatchingFonts family
              (if desc.weight = 0 then DWRITE_FONT_WEIGHT_NORMAL else desc.weight)
              DWRITE_FONT_STRETCH_UNDEFINED
              (if desc.italic = true then DWRITE_FONT_STYLE_ITALIC
                else DWRITE_FONT_STYLE_NORMAL)))) ∧
      (desc.italic = false →
        findFontsByFamily p collection desc
          = .ok (some (p.GetMatchingFonts family
              (if desc.weight = 0 then DWRITE_FONT_WEIGHT_NORMAL else desc.weight)
              desc.width
              DWRITE_FONT_STYLE_NORMAL))) := by
  obtain ⟨family, hget⟩ := FindFamilyName_found collection name index hfound
  refine ⟨family, hget, ?_, ?_⟩
  · intro hwidth
    by_cases hw : desc.weight = 0 <;> cases hi : desc.italic <;>
      simp [findFontsByFamily, hfamily, utf8ToUtf16, hfound, hget, HR,
        findFontsByFamily.weight, findFontsByFamily.stretch, findFontsByFamily.style,
        hwidth, hw, hi]
  · intro hitalic
    by_cases hw : desc.weight = 0 <;> by_cases hs : desc.width = 0 <;>
      simp [findFontsByFamily, hfamily, utf8ToUtf16, hfound, hget, HR,
        findFontsByFamily.weight, findFontsByFamily.stretch, findFontsByFamily.style,
        hitalic, hw, hs, DWRITE_FONT_STRETCH_UNDEFINED]

/-- C9 (amended) on the sample collection: an italic query with width
unspecified is asked at the undefined stretch, and an upright query with the
expanded width `7` is asked at the upright style. -/
theorem findFontsByFamily_unspecified_width_witness :
    (∃ family, sampleCollection.GetFontFamily 0 = .ok family ∧
      findFontsByFamily samplePlatform sampleCollection
          { familyQuery "Sample" with italic := true }
        = .ok (some (samplePlatform.GetMatchingFonts family 400
            DWRITE_FONT_STRETCH_UNDEFINED DWRITE_FONT_STYLE_ITALIC))) ∧
    (∃ family, sampleCollection.GetFontFamily 0 = .ok family ∧
      findFontsByFamily samplePlatform sampleCollection
          { familyQuery "Sample" with width := 7 }
        = .ok (some (samplePlatform.GetMatchingFonts family 400 7
            DWRITE_FONT_STYLE_NORMAL))) := by
  constructor
  · obtain ⟨family, hget, hwidth, -⟩ :=
      findFontsByFamily_unspecified_width samplePlatform sampleCollection
        { familyQuery "Sample" with italic := true } "Sample" 0 rfl rfl
    exact ⟨family, hget, hwidth rfl⟩
  · obtain ⟨family, hget, -, hitalic⟩ :=
      findFontsByFamily_unspecified_width samplePlatform sampleCollection
        { familyQuery "Sample" with width := 7 } "Sample" 0 rfl rfl
    exact ⟨family, hget, hitalic rfl⟩

/-! ## Enumeration -/

/-- A descriptor is `NULL` exactly when the face has no file or its first file
has no local file loader. -/
theorem resultFromFont_eq_none_iff (p : Platform) (font : IDWriteFont)
    (d : Option FontDescriptor) (h : resultFromFont p (some font) = .ok d) :
    d = none ↔ font.face.files.head?.bind IDWriteFontFile.localFilePath = none := by
  unfold resultFromFont at h
  cases hfiles : font.face.files with
  | nil =>
    simp [hfiles] at h
    simp [h.symm]
  | cons file0 files =>
    cases hpath : file0.localFilePath with
    | none =>
      simp [hfiles, hpath] at h
      simp [h.symm, hpath]
    | some name =>
      simp only [hfiles, List.length_cons, gt_iff_lt, Nat.zero_lt_succ, ↓reduceIte,
        List.head?_cons, hpath] at h
      cases h1 : getString p font .POSTSCRIPT_NAME with
      | error e => simp [h1] at h
      | ok ps =>
        cases h2 : getString p font .WIN32_FAMILY_NAMES with
        | error e => simp [h1, h2] at h
        | ok fam =>
          cases h3 : getString p font .WIN32_SUBFAMILY_NAMES with
          | error e => simp [h1, h2, h3] at h
          | ok sty =>
            simp [h1, h2, h3] at h
            simp [h.symm, hpath]

/-- The inner loop of `getAvailableFonts` appends one element per font, in
order, when no descriptor construction faults. -/
theorem getAvailableFonts_fontLoop_ok (p : Platform) (fonts : List IDWriteFont) :
    ∀ res : ResultSet,
    (∀ f ∈ fonts, ∃ d, resultFromFont p (some f) = .ok d) →
    ∃ ds, getAvailableFonts.fontLoop p fonts res = .ok (res ++ ds) ∧
      List.Forall₂ (fun f d => resultFromFont p (some f) = .ok d) fonts ds := by
  induction fonts with
  | nil =>
    intro res _
    exact ⟨[], by simp [getAvailableFonts.fontLoop], List.Forall₂.nil⟩
  | cons font fonts ih =>
    intro res h
    obtain ⟨d, hd⟩ := h font (List.mem_cons_self _ _)
    obtain ⟨ds, hds, hrel⟩ := ih (res ++ [d]) (fun f hf => h f (List.mem_cons_of_mem _ hf))
    refine ⟨d :: ds, ?_, List.Forall₂.cons hd hrel⟩
    simp [getAvailableFonts.fontLoop, hd, hds]

/-- The outer loop of `getAvailableFonts` appends one element per face of the
families, in enumeration order, when no descriptor construction faults. -/
theorem getAvailableFonts_familyLoop_ok (p : Platform) (families : List IDWriteFontFamily) :
    ∀ res : ResultSet,
    (∀ f ∈ families.flatMap (fun family => family.fonts),
      ∃ d, resultFromFont p (some f) = .ok d) →
    ∃ ds, getAvailableFonts.familyLoop p families res = .ok (res ++ ds) ∧
      List.Forall₂ (fun f d => resultFromFont p (some f) = .ok d)
        (families.flatMap (fun family => family.fonts)) ds := by
  induction families with
  | nil =>
    intro res _
    exact ⟨[], by simp [getAvailableFonts.familyLoop], by simp⟩
  | cons family families ih =>
    intro res h
    have h1 : ∀ f ∈ family.fonts, ∃ d, resultFromFont p (some f) = .ok d :=
      fun f hf => h f (by simp [List.flatMap_cons]; exact Or.inl hf)
    obtain ⟨ds1, hds1, hrel1⟩ := getAvailableFonts_fontLoop_ok p family.fonts res h1
    obtain ⟨ds2, hds2, hrel2⟩ := ih (res ++ ds1)
      (fun f hf => h f (by simp [List.flatMap_cons]; exact Or.inr (by simpa using hf)))
    refine ⟨ds1 ++ ds2, ?_, ?_⟩
    · simp [getAvailableFonts.familyLoop, hds1, hds2]
    · rw [List.flatMap_cons]
      exact List.rel_append hrel1 hrel2

/-- Whatever the inner loop of `getAvailableFonts` returns extends the
accumulator by one element per font, in order. -/
theorem getAvailableFonts_fontLoop_inv (p : Platform) (fonts : List IDWriteFont) :
    ∀ res out : ResultSet, getAvailableFonts.fontLoop p fonts res = .ok out →
    ∃ ds, out = res ++ ds ∧
      List.Forall₂ (fun f d => resultFromFont p (some f) = .ok d) fonts ds := by
  induction fonts with
  | nil =>
    intro res out h
    simp only [getAvailableFonts.fontLoop, Except.ok.injEq] at h
    exact ⟨[], by simp [h], List.Forall₂.nil⟩
  | cons font fonts ih =>
    intro res out h
    unfold getAvailableFonts.fontLoop at h
    cases hd : resultFromFont p (some font) with
    | error e => simp [hd] at h
    | ok d =>
      simp only [hd] at h
      obtain ⟨ds, hout, hrel⟩ := ih _ _ h
      exact ⟨d :: ds, by simp [hout], List.Forall₂.cons hd hrel⟩

/-- Whatever the outer loop of `getAvailableFonts` returns extends the
accumulator by one element per face, in enumeration order. -/
theorem getAvailableFonts_familyLoop_inv (p : Platform) (families : List IDWriteFontFamily) :
    ∀ res out : ResultSet, getAvailableFonts.familyLoop p families res = .ok out →
    ∃ ds, out = res ++ ds ∧
      List.Forall₂ (fun f d => resultFromFont p (some f) = .ok d)
        (families.flatMap (fun family => family.fonts)) ds := by
  induction families with
  | nil =>
    intro res out h
    simp only [getAvailableFonts.familyLoop, Except.ok.injEq] at h
    exact ⟨[], by simp [h], by simp⟩
  | cons family families ih =>
    intro res out h
    unfold getAvailableFonts.familyLoop at h
    cases h1 : getAvailableFonts.fontLoop p family.fonts res with
    | error e => simp [h1] at h
    | ok mid =>
      simp only [h1] at h
      obtain ⟨ds1, hmid, hrel1⟩ := getAvailableFonts_fontLoop_inv p family.fonts res mid h1
      obtain ⟨ds2, hout, hrel2⟩ := ih _ _ h
      refine ⟨ds1 ++ ds2, by simp [hout, hmid], ?_⟩
      rw [List.flatMap_cons]
      exact List.rel_append hrel1 hrel2

/-- C10 (as stated) fails: the one face of the collection has no font file,
its descriptor construction returns `NULL`, and `getAvailableFonts` returns a
sequence holding that `NULL` element instead of skipping the face. -/
theorem getAvailableFonts_keeps_null :
    allFonts noFileCollection = [sampleNoFile] ∧
    resultFromFont samplePlatform (some sampleNoFile) = .ok none ∧
    getAvailableFonts samplePlatform noFileCollection = .ok [none] ∧
    getAvailableFonts samplePlatform noFileCollection ≠ .ok [] := by
  refine ⟨rfl, rfl, rfl, ?_⟩
  intro h
  have h2 : getAvailableFonts samplePlatform noFileCollection = .ok [none] := rfl
  rw [h2] at h
  simp at h

/-- C10 (amended): when no descriptor construction ends in a fault,
`getAvailableFonts` returns exactly one element for each face, in the
platform's enumeration order (families, then faces within each family): the
element is what `resultFromFont` returns for the face, which is `NULL` exactly
when the face has no font file or its first file has no local file loader. -/
theorem getAvailableFonts_one_element_per_face (p : Platform)
    (collection : IDWriteFontCollection)
    (h : ∀ f ∈ allFonts collection, ∃ d, resultFromFont p (some f) = .ok d) :
    ∃ ds, getAvailableFonts p collection = .ok ds ∧
      List.Forall₂
        (fun f d => resultFromFont p (some f) = .ok d ∧
          (d = none ↔ f.face.files.head?.bind IDWriteFontFile.localFilePath = none))
        (allFonts collection) ds := by
  obtain ⟨ds, hds, hrel⟩ := getAvailableFonts_familyLoop_ok p collection.families [] h
  refine ⟨ds, by simpa [getAvailableFonts] using hds, ?_⟩
  exact hrel.imp (fun f d hfd => ⟨hfd, resultFromFont_eq_none_iff p f d hfd⟩)

/-- C10 (amended) on a collection with a file-backed face and a face without
any file. -/
theorem getAvailableFonts_one_element_per_face_witness :
    (∀ f ∈ allFonts mixedCollection, ∃ d, resultFromFont samplePlatform (some f) = .ok d) ∧
    ∃ ds, getAvailableFonts samplePlatform mixedCollection = .ok ds ∧
      List.Forall₂
        (fun f d => resultFromFont samplePlatform (some f) = .ok d ∧
          (d = none ↔ f.face.files.head?.bind IDWriteFontFile.localFilePath = none))
        (allFonts mixedCollection) ds :=
  have h : ∀ f ∈ allFonts mixedCollection,
      ∃ d, resultFromFont samplePlatform (some f) = .ok d := by
    intro f hf
    have hcases : f = sampleRegular ∨ f = sampleNoFile := by
      simpa [allFonts, mixedCollection, sampleFamily] using hf
    rcases hcases with rfl | rfl <;> exact ⟨_, rfl⟩
  ⟨h, getAvailableFonts_one_element_per_face samplePlatform mixedCollection h⟩

/-! ## Lookup by postscript name -/

/-- A descriptor built from a font carries the font's postscript name. -/
theorem resultFromFont_postscriptName (p : Platform) (font : IDWriteFont)
    (d : FontDescriptor) (h : resultFromFont p (some font) = .ok (some d)) :
    ∃ s, getString p font .POSTSCRIPT_NAME = .ok s ∧ d.postscriptName = some s := by
  unfold resultFromFont at h
  cases hfiles : font.face.files with
  | nil => simp [hfiles] at h
  | cons file0 files =>
    cases hpath : file0.localFilePath with
    | none => simp [hfiles, hpath] at h
    | some name =>
      simp only [hfiles, List.length_cons, gt_iff_lt, Nat.zero_lt_succ, ↓reduceIte,
        List.head?_cons, hpath] at h
      cases h1 : getString p font .POSTSCRIPT_NAME with
      | error e => simp [h1] at h
      | ok ps =>
        cases h2 : getString p font .WIN32_FAMILY_NAMES with
        | error e => simp [h1, h2] at h
        | ok fam =>
          cases h3 : getString p font .WIN32_SUBFAMILY_NAMES with
          | error e => simp [h1, h2, h3] at h
          | ok sty =>
            simp [h1, h2, h3] at h
            exact ⟨ps, rfl, by simp [h.symm]⟩

/-- The scan of one family finds nothing when every font has a postscript
name other than the one asked for. -/
theorem scan_fontLoop_none (p : Platform) (desc : FontDescriptor) (s : String)
    (hdesc : desc.postscriptName = some s) (fonts : List IDWriteFont)
    (h : ∀ g ∈ fonts, ∃ n, getString p g .POSTSCRIPT_NAME = .ok n ∧ n ≠ s) :
    findFontByPostscriptName.fontLoop p desc fonts = .ok none := by
  induction fonts with
  | nil => rfl
  | cons font fonts ih =>
    obtain ⟨n, hn, hne⟩ := h font (List.mem_cons_self _ _)
    have ih2 := ih (fun g hg => h g (List.mem_cons_of_mem _ hg))
    simp [findFontByPostscriptName.fontLoop, hn, hdesc, hne, ih2]

/-- The scan of one family finds the font of the name asked for when every
font has a postscript name and only that font has this one. -/
theorem scan_fontLoop_some (p : Platform) (desc : FontDescriptor) (s : String)
    (hdesc : desc.postscriptName = some s) (f : IDWriteFont) (fonts : List IDWriteFont)
    (hmem : f ∈ fonts) (hf : getString p f .POSTSCRIPT_NAME = .ok s)
    (h : ∀ g ∈ fonts, ∃ n, getString p g .POSTSCRIPT_NAME = .ok n ∧ (n = s → g = f)) :
    findFontByPostscriptName.fontLoop p desc fonts = .ok (some f) := by
  induction fonts with
  | nil => simp at hmem
  | cons font fonts ih =>
    obtain ⟨n, hn, himp⟩ := h font (List.mem_cons_self _ _)
    by_cases hns : n = s
    · have hfont : font = f := himp hns
      subst hfont
      simp [findFontByPostscriptName.fontLoop, hn, hdesc, hns]
    · have hmem2 : f ∈ fonts := by
        rcases List.mem_cons.mp hmem with heq | hin
        · exfalso
          subst heq
          rw [hf] at hn
          exact hns (Except.ok.inj hn).symm
        · exact hin
      have ih2 := ih hmem2 (fun g hg => h g (List.mem_cons_of_mem _ hg))
      simp [findFontByPostscriptName.fontLoop, hn, hdesc, hns, ih2]

/-- The scan of the families finds the font of the name asked for when every
face has a postscript name and only that font has this one. -/
theorem scan_familyLoop_some (p : Platform) (desc : FontDescriptor) (s : String)
    (hdesc : desc.postscriptName = some s) (f : IDWriteFont)
    (hf : getString p f .POSTSCRIPT_NAME = .ok s) (families : List IDWriteFontFamily)
    (hmem : f ∈ families.flatMap (fun family => family.fonts))
    (h : ∀ g ∈ families.flatMap (fun family => family.fonts),
      ∃ n, getString p g .POSTSCRIPT_NAME = .ok n ∧ (n = s → g = f)) :
    findFontByPostscriptName.familyLoop p desc families = .ok (some f) := by
  induction families with
  | nil => simp at hmem
  | cons family families ih =>
    have hhead : ∀ g ∈ family.fonts,
        ∃ n, getString p g .POSTSCRIPT_NAME = .ok n ∧ (n = s → g = f) :=
      fun g hg => h g (by simp [List.flatMap_cons]; exact Or.inl hg)
    have htail : ∀ g ∈ families.flatMap (fun family => family.fonts),
        ∃ n, getString p g .POSTSCRIPT_NAME = .ok n ∧ (n = s → g = f) :=
      fun g hg => h g (by simp [List.flatMap_cons]; exact Or.inr (by simpa using hg))
    by_cases hin : f ∈ family.fonts
    · have := scan_fontLoop_some p desc s hdesc f family.fonts hin hf hhead
      simp [findFontByPostscriptName.familyLoop, this]
    · have hnone : findFontByPostscriptName.fontLoop p desc family.fonts = .ok none := by
        apply scan_fontLoop_none p desc s hdesc
        intro g hg
        obtain ⟨n, hn, himp⟩ := hhead g hg
        refine ⟨n, hn, fun hns => hin ?_⟩
        rw [← himp hns]
        exact hg
      have hmem2 : f ∈ families.flatMap (fun family => family.fonts) := by
        rw [List.flatMap_cons, List.mem_append] at hmem
        exact hmem.resolve_left hin
      have := ih hmem2 htail
      simp [findFontByPostscriptName.familyLoop, hnone, this]

/-- C4 (as stated) fails: two installed faces share the postscript name
`Sample-Regular`; `getAvailableFonts` produces a descriptor for each, and the
lookup of the second descriptor's postscript name returns the descriptor of
the first face, which differs from it in path, style and weight. -/
theorem findFonts_roundtrip_duplicate_name :
    ∃ d₁ d₂ : FontDescriptor,
      getAvailableFonts samplePlatform duplicateCollection = .ok [some d₁, some d₂] ∧
      findFonts samplePlatform duplicateCollection
        { FontDescriptor.new with postscriptName := d₂.postscriptName } = .ok [some d₁] ∧
      d₁ ≠ d₂ :=
  ⟨_, _, rfl, rfl, by decide⟩

/-- C4 (amended): when every installed face has a postscript name and no two
different faces share one, then for every descriptor `d` produced by
`getAvailableFonts`, `findFonts` for the query whose only key is
`d.postscriptName` returns exactly one descriptor, and it is `d`. -/
theorem findFonts_roundtrip (p : Platform) (collection : IDWriteFontCollection)
    (ds : ResultSet) (d : FontDescriptor)
    (hall : getAvailableFonts p collection = .ok ds) (hd : some d ∈ ds)
    (hnames : ∀ f ∈ allFonts collection, ∃ s, getString p f .POSTSCRIPT_NAME = .ok s)
    (hunique : ∀ f ∈ allFonts collection, ∀ g ∈ allFonts collection,
      getString p f .POSTSCRIPT_NAME = getString p g .POSTSCRIPT_NAME → f = g) :
    findFonts p collection { FontDescriptor.new with postscriptName := d.postscriptName }
      = .ok [some d] := by
  obtain ⟨ds2, hds, hrel⟩ := getAvailableFonts_familyLoop_inv p collection.families [] ds hall
  simp only [List.nil_append] at hds
  subst hds
  obtain ⟨f, hfmem, hfd⟩ : ∃ f ∈ allFonts collection, resultFromFont p (some f) = .ok (some d) := by
    obtain ⟨i, hi, hget⟩ := List.getElem_of_mem hd
    have hlen := hrel.length_eq
    have hi2 : i < (allFonts collection).length := by
      unfold allFonts
      omega
    refine ⟨(allFonts collection)[i], List.getElem_mem _, ?_⟩
    have := (List.forall₂_iff_get.mp hrel).2 i hi2 hi
    simpa [hget] using this
  obtain ⟨s, hs, hds⟩ := resultFromFont_postscriptName p f d hfd
  have hscan : findFontByPostscriptName p collection
      { FontDescriptor.new with postscriptName := d.postscriptName } = .ok (some f) := by
    apply scan_familyLoop_some p _ s (by simp [hds]) f hs collection.families hfmem
    intro g hg
    obtain ⟨n, hn⟩ := hnames g hg
    refine ⟨n, hn, fun hns => ?_⟩
    apply hunique g hg f hfmem
    rw [hn, hs, hns]
  simp only [FontDescriptor.new, hds] at hscan
  simp [findFonts, FontDescriptor.new, hds, hscan, hfd]

/-- C4 (amended) on the sample collection, for the descriptor of its second
face. -/
theorem findFonts_roundtrip_witness :
    getAvailableFonts samplePlatform sampleCollection
      = .ok [some sampleRegularDescriptor, some sampleBoldCondensedDescriptor,
          some sampleFallbackDescriptor] ∧
    findFonts samplePlatform sampleCollection
      { FontDescriptor.new with postscriptName := sampleBoldCondensedDescriptor.postscriptName }
      = .ok [some sampleBoldCondensedDescriptor] :=
  have hmem : ∀ f ∈ allFonts sampleCollection,
      f = sampleRegular ∨ f = sampleBoldCondensed ∨ f = sampleFallback := by
    intro f hf
    simpa [allFonts, sampleCollection, sampleFamily] using hf
  ⟨rfl, findFonts_roundtrip samplePlatform sampleCollection
    [some sampleRegularDescriptor, some sampleBoldCondensedDescriptor,
      some sampleFallbackDescriptor]
    sampleBoldCondensedDescriptor rfl
    (List.mem_cons_of_mem _ (List.mem_cons_self _ _))
    (by
      intro f hf
      rcases hmem f hf with rfl | rfl | rfl <;> exact ⟨_, rfl⟩)
    (by
      intro f hf g hg
      rcases hmem f hf with rfl | rfl | rfl <;> rcases hmem g hg with rfl | rfl | rfl <;>
        first
          | (intro _; rfl)
          | (intro h
             have h2 := congrArg Except.toOption h
             revert h2
             decide))⟩

/-! ## Fallback resolution -/

/-- The drawing pass, when the face of every run resolves to a font of the
collection, ends with the renderer holding the font of the last run, or what
it held before when there is no run. -/
theorem runLoop_all_resolve (p : Platform) (collection : IDWriteFontCollection) :
    ∀ (runs : List DWRITE_GLYPH_RUN) (fonts : List IDWriteFont)
      (renderer : FontFallbackRenderer),
    renderer.systemFonts = collection →
    runs.map (fun run => p.GetFontFromFontFace collection run.fontFace)
      = fonts.map Except.ok →
    IDWriteTextLayout.Draw.runLoop p runs renderer
      = .ok { systemFonts := collection, font := fonts.getLast?.or renderer.font } := by
  intro runs
  induction runs with
  | nil =>
    intro fonts renderer hsys hmap
    cases fonts with
    | nil =>
      cases renderer
      simp only at hsys
      simp [IDWriteTextLayout.Draw.runLoop, hsys]
    | cons f fs => simp at hmap
  | cons run runs ih =>
    intro fonts renderer hsys hmap
    cases fonts with
    | nil => simp at hmap
    | cons f fs =>
      simp only [List.map_cons, List.cons.injEq] at hmap
      obtain ⟨hrun, hrest⟩ := hmap
      have hstep : renderer.DrawGlyphRun p run
          = (HRESULT.S_OK, { renderer with font := some f }) := by
        simp [FontFallbackRenderer.DrawGlyphRun, hsys, hrun]
      have hnext := ih fs { renderer with font := some f } hsys hrest
      simp only [IDWriteTextLayout.Draw.runLoop, hstep, hnext]
      cases hlast : fs.getLast? with
      | none => simp [List.getLast?_cons, hlast]
      | some x => simp [List.getLast?_cons, hlast]

/-- The last-run rule, once the scan has found the base font: for a base font
found by its postscript name (its family having a name) and glyph runs whose
faces all resolve to fonts of the collection, `substituteFont` returns what
`resultFromFont` builds from the font of the last run drawn, whatever the
earlier runs were; with no run drawn it returns `NULL`. -/
theorem substituteFont_last_run (p : Platform) (collection : IDWriteFontCollection)
    (postscriptName string : String) (font : IDWriteFont) (name : String × String)
    (fonts : List IDWriteFont)
    (hbase : findFontByPostscriptName p collection
      { FontDescriptor.new with postscriptName := some postscriptName } = .ok (some font))
    (hname : font.familyNames.entries.head? = some name)
    (hruns : (p.glyphRuns (substituteFont.layout collection font name.2 string)).map
        (fun run => p.GetFontFromFontFace collection run.fontFace)
      = fonts.map Except.ok) :
    substituteFont p collection postscriptName string
      = match fonts.getLast? with
        | some last => resultFromFont p (some last)
        | none => .ok none := by
  have hentries : font.familyNames.entries.get? 0 = some name := by
    cases hcase : font.familyNames.entries with
    | nil => simp [hcase] at hname
    | cons e es =>
      simp [hcase] at hname
      simp [hname]
  have hdraw := runLoop_all_resolve p collection _ fonts
    (FontFallbackRenderer.new collection) rfl hruns
  simp only [FontFallbackRenderer.new, Option.or_none] at hdraw
  simp only [substituteFont, hbase, IDWriteLocalizedStrings.GetStringLength, hentries,
    IDWriteLocalizedStrings.GetString, HR, Nat.lt_succ_self, ↓reduceIte, utf8ToUtf16,
    IDWriteTextLayout.Draw, FontFallbackRenderer.new, hdraw]

/-- The last-run rule on the sample platform: the text `aé` draws a run with
the base font and then a run with the fallback font, and the result is built
from the fallback font. -/
theorem substituteFont_last_run_witness :
    substituteFont samplePlatform sampleCollection "Sample-Regular" "aé"
      = match [sampleRegular, sampleFallback].getLast? with
        | some last => resultFromFont samplePlatform (some last)
        | none => .ok none :=
  substituteFont_last_run samplePlatform sampleCollection "Sample-Regular" "aé"
    sampleRegular ("en-us", "Sample") [sampleRegular, sampleFallback] rfl rfl rfl

/-- C1 (the code at the failing input): `Sample-Regular` is installed, as the
second face of a collection whose first face has no postscript-name entry; the
text `a` draws one glyph run, its face resolves to the base font, and the
descriptor of that font can be built.  `substituteFont` does not return that
descriptor: the scan for the base font calls `getString` on the first face and
ends in the null dereference of `getLocaleIndex`, before any layout is made.
With the same base font and text on a collection without the first face the
descriptor is returned. -/
theorem substituteFont_installed_base_faults :
    allFonts noPsNameCollection = [sampleNoPsName, sampleRegular] ∧
    sampleNoPsName.postscriptName = none ∧
    getString samplePlatform sampleRegular .POSTSCRIPT_NAME = .ok "Sample-Regular" ∧
    (samplePlatform.glyphRuns
        (substituteFont.layout noPsNameCollection sampleRegular "Sample" "a")).map
      (fun run => samplePlatform.GetFontFromFontFace noPsNameCollection run.fontFace)
      = [.ok sampleRegular] ∧
    resultFromFont samplePlatform (some sampleRegular) = .ok (some sampleRegularDescriptor) ∧
    findFontByPostscriptName samplePlatform noPsNameCollection
      (postscriptQuery "Sample-Regular") = .error Fault.nullDereference ∧
    substituteFont samplePlatform noPsNameCollection "Sample-Regular" "a"
      = .error Fault.nullDereference ∧
    substituteFont samplePlatform sampleCollection "Sample-Regular" "a"
      = .ok (some sampleRegularDescriptor) :=
  ⟨rfl, rfl, rfl, rfl, rfl, rfl, rfl, rfl⟩

/-! ## Names that no installed face has -/

/-- The scan of the families finds nothing when every face has a postscript
name other than the one asked for. -/
theorem scan_familyLoop_none (p : Platform) (desc : FontDescriptor) (s : String)
    (hdesc : desc.postscriptName = some s) (families : List IDWriteFontFamily)
    (h : ∀ g ∈ families.flatMap (fun family => family.fonts),
      ∃ n, getString p g .POSTSCRIPT_NAME = .ok n ∧ n ≠ s) :
    findFontByPostscriptName.familyLoop p desc families = .ok none := by
  induction families with
  | nil => rfl
  | cons family families ih =>
    have hhead := scan_fontLoop_none p desc s hdesc family.fonts
      (fun g hg => h g (by simp [List.flatMap_cons]; exact Or.inl hg))
    have htail := ih
      (fun g hg => h g (by simp [List.flatMap_cons]; exact Or.inr (by simpa using hg)))
    simp [findFontByPostscriptName.familyLoop, hhead, htail]

/-- When every installed face has a postscript name and none is the one asked
for, `findFont` returns `NULL` and `findFonts` ends in the null dereference of
`resultFromFont`. -/
theorem findFont_not_found (p : Platform) (collection : IDWriteFontCollection) (s : String)
    (h : ∀ g ∈ allFonts collection, ∃ n, getString p g .POSTSCRIPT_NAME = .ok n ∧ n ≠ s) :
    findFont p collection (postscriptQuery s) = .ok none ∧
    findFonts p collection (postscriptQuery s) = .error Fault.nullDereference := by
  have hscan : findFontByPostscriptName p collection (postscriptQuery s) = .ok none :=
    scan_familyLoop_none p (postscriptQuery s) s rfl collection.families h
  constructor
  · simp [findFont, postscriptQuery, FontDescriptor.new] at hscan ⊢
    simp [hscan]
  · simp [findFonts, postscriptQuery, FontDescriptor.new] at hscan ⊢
    simp [hscan, resultFromFont]

end FontManagerWindows
